import Mathlib

/-!
Verification of the elba-bot publishing bot against its design document.

This file gives a shallow embedding, in Lean 4, of the parts of the
repository that the frozen claims are about:

* the Ledger (src/database.rs): an SQLite store of users, comments and
  package records, modelled as explicit lists with the exact insert /
  query semantics of the SQL statements the code issues;
* the publish permission check (src/controller/publish.rs,
  `check_publish_permission`);
* the comment-command recognizer (src/controller/command.rs), a nom
  parser modelled as a total function on character lists;
* the per-comment step of the polling controller
  (src/controller/mod.rs, `Controller::run`), modelled as a state
  transformer that also emits a trace of its externally visible actions;
* the publish pipeline (src/controller/publish.rs, `Controller::publish`),
  modelled as the trace of state transitions, comment edits and
  collaborator calls it performs, indexed by which fallible operation
  (if any) fails first;
* the artifact store upload (src/workspace/store.rs, `upload_package`),
  modelled the same way;
* the index entry list insertion (src/workspace/index.rs,
  `Entries::insert`).

Timestamps are modelled as integers (the code only compares them and
subtracts a fixed tolerance), versions and git data as strings, and
comment bodies as character lists.
-/

set_option autoImplicit false

deriving instance DecidableEq for Except

/-- Github/ledger user as in src/github.rs (`User`) and src/database.rs
(`User`): both carry exactly an id and a (login) name, and the controller
copies the former into the latter field by field, so one type models both. -/
structure User where
  id : Int
  name : String
deriving DecidableEq, Repr

/-- Ledger package record, src/database.rs `Package`: the `group` field is
the SQL column `group_name`; `version` (semver) is stored and compared as a
string. -/
structure Package where
  group : String
  name : String
  version : String
  description : Option String
  user_id : Int
deriving DecidableEq, Repr

/-- One row of the SQLite `packages` table: the record plus the implicit
SQLite rowid (the table declares no INTEGER PRIMARY KEY, so it is a rowid
table; rowids are assigned max+1 on insert). The rowid matters only
because `query_package` interpolates the group into a double-quoted SQL
token, which SQLite resolves as a column or rowid alias when possible. -/
structure PackageRow where
  rowid : Int
  pkg : Package
deriving DecidableEq, Repr

/-- Ledger comment record, src/database.rs `Comment`: `created_at` is an
abstract integer timestamp, `body` the comment text. -/
structure DbComment where
  id : Int
  user_id : Int
  body : List Char
  created_at : Int
deriving DecidableEq, Repr

/-- The Ledger state: the three SQLite tables created by
`Database::create_tables` (src/database.rs). -/
structure DbState where
  users : List User
  packageRows : List PackageRow
  comments : List DbComment
deriving DecidableEq, Repr

/-- Packages currently recorded in the ledger, in rowid order (the order
`SELECT * FROM packages` returns). -/
def ledgerPackages (db : DbState) : List Package :=
  db.packageRows.map (fun r => r.pkg)

/-- Largest rowid in use in the packages table (0 when empty); SQLite
assigns max+1 to the next plain INSERT. -/
def maxRowid (db : DbState) : Int :=
  db.packageRows.foldl (fun m r => max m r.rowid) 0

/-- Model of `Database::insert_user` (src/database.rs lines 71-80):
`INSERT OR REPLACE INTO users (id, name)` — the `users` table has
PRIMARY KEY on `id`, so any existing row with the same id is deleted and
the new row inserted. This operation never fails. -/
def Database.insert_user (db : DbState) (user : User) : DbState :=
  { db with users := db.users.filter (fun u => u.id != user.id) ++ [user] }

/-- Model of `Database::query_user` (src/database.rs lines 61-69):
`SELECT * FROM users WHERE id = ?1` via a bound parameter, taking the
first matching row. -/
def Database.query_user (db : DbState) (user_id : Int) : Option User :=
  db.users.find? (fun u => u.id == user_id)

/-- Model of `Database::insert_package` (src/database.rs lines 104-113):
a plain `INSERT INTO packages ...` (no OR REPLACE). The table has
`UNIQUE(group_name, name, version)`, so inserting a second record with
the same key fails with a constraint violation and changes nothing.
(The FOREIGN KEY on user_id is not enforced: SQLite foreign keys are off
by default and the code never enables them.) -/
def Database.insert_package (db : DbState) (p : Package) : Except Unit DbState :=
  if db.packageRows.any (fun r =>
      r.pkg.group == p.group && r.pkg.name == p.name && r.pkg.version == p.version)
  then .error ()
  else .ok { db with packageRows := db.packageRows ++ [⟨maxRowid db + 1, p⟩] }

/-- Model of `Database::query_comment` (src/database.rs lines 115-123):
`SELECT * FROM comments WHERE id = ?1` via a bound parameter. -/
def Database.query_comment (db : DbState) (comment_id : Int) : Option DbComment :=
  db.comments.find? (fun c => c.id == comment_id)

/-- Model of `Database::insert_comment` (src/database.rs lines 125-134):
a plain `INSERT INTO comments ...`; `id` is the PRIMARY KEY (the typo
`INTERGER` in the schema prevents the rowid-alias reading but the PRIMARY
KEY uniqueness constraint stands), so inserting a second comment with the
same id fails and changes nothing. -/
def Database.insert_comment (db : DbState) (c : DbComment) : Except Unit DbState :=
  if db.comments.any (fun old => old.id == c.id)
  then .error ()
  else .ok { db with comments := db.comments ++ [c] }

/-- Does a text-affinity value equal an integer under SQLite comparison
affinity? When a TEXT-affinity operand is compared against an
INTEGER-affinity operand, SQLite applies numeric affinity to the text: the
comparison succeeds exactly when the text reads as that number. Modelled
with integer parsing (the group strings involved never look like reals). -/
def textEqInt (s : String) (i : Int) : Bool :=
  s.toInt? == some i

/-- ASCII lowercasing of one character, used for SQLite's
case-insensitive identifier comparison. -/
def lowerChar (c : Char) : Char :=
  if 65 ≤ c.toNat && c.toNat ≤ 90 then Char.ofNat (c.toNat + 32) else c

/-- Case-insensitive (ASCII) comparison of a string against an
identifier spelled in lowercase. -/
def lowerEq (s pat : String) : Bool :=
  s.data.map lowerChar == pat.data

/-- Does the string contain a double-quote character (which would break
the SQL text it is interpolated into)? -/
def hasDoubleQuote (s : String) : Bool :=
  s.data.any (fun c => c == '"')

/-- Identifiers that SQLite resolves inside
`SELECT * FROM packages WHERE group_name = "<g>"`: the five column names
of the `packages` table and the three rowid aliases (the table is a rowid
table). SQLite identifier resolution is case-insensitive, and by the
documented double-quoted-string misfeature a double-quoted token is
resolved as an identifier first and only falls back to a string literal
when that fails. -/
def sqlPackagesIdent (g : String) : Bool :=
  lowerEq g "group_name" || lowerEq g "name" || lowerEq g "version" ||
  lowerEq g "description" || lowerEq g "user_id" ||
  lowerEq g "rowid" || lowerEq g "oid" || lowerEq g "_rowid_"

/-- Row filter actually evaluated by the SQL that
`Database::query_package` builds with
`format!("WHERE group_name = \x7b\x7d", group)` inside double quotes
(src/database.rs lines 82-94). If the interpolated group is a resolvable
identifier the right-hand side is that column (or the rowid), otherwise
it is the string literal `g`. A NULL description compares as NULL, i.e.
the row is not returned. -/
def sqlRowMatches (g : String) (r : PackageRow) : Bool :=
  if lowerEq g "group_name" then true
  else if lowerEq g "name" then r.pkg.group == r.pkg.name
  else if lowerEq g "version" then r.pkg.group == r.pkg.version
  else if lowerEq g "description" then r.pkg.description == some r.pkg.group
  else if lowerEq g "user_id" then textEqInt r.pkg.group r.pkg.user_id
  else if lowerEq g "rowid" || lowerEq g "oid" || lowerEq g "_rowid_" then
    textEqInt r.pkg.group r.rowid
  else r.pkg.group == g

/-- Model of `Database::query_package` (src/database.rs lines 82-102).
With no group: `SELECT * FROM packages` — all records. With a group `g`:
the code interpolates `g` textually into
`WHERE group_name = "<g>"`; for a quote-free `g` the double-quoted token
is resolved per `sqlRowMatches`. A `g` containing a double quote escapes
the intended literal — usually a prepare error, but balanced quotes can
even form a differently shaped valid query (textbook injection); the
model folds all such groups into the error case, and every theorem below
that characterizes this query restricts itself to quote-free groups, so
nothing is claimed about the injected shapes. -/
def Database.query_package (db : DbState) (group : Option String) :
    Except Unit (List Package) :=
  match group with
  | none => .ok (ledgerPackages db)
  | some g =>
    if hasDoubleQuote g then .error ()
    else .ok ((db.packageRows.filter (sqlRowMatches g)).map (fun r => r.pkg))

/-- An elba package name (elba::package::Name): a `group/name` pair. The
bot always uses the normalized (lowercased) forms, so the model stores
the normalized group and name directly; `normalized_group()` and
`normalized_name()` are the field projections and `to_string()` is
`group ++ "/" ++ name`. -/
structure PkgName where
  group : String
  name : String
deriving DecidableEq, Repr

/-- Display form of a package name, as `Name::to_string` renders it. -/
def PkgName.toStr (n : PkgName) : String :=
  n.group ++ "/" ++ n.name

/-- A manifest dependency requirement (elba `DepReq`): either a registry
(index) constraint, or any other resolution (git, local path, ...)
carried as its debug rendering, which is all `Entries::insert` ever uses
of it. -/
inductive DepReq where
  | registry (constraint : String)
  | nonRegistry (debugRepr : String)
deriving DecidableEq, Repr

/-- Does a dependency requirement resolve inside the registry? -/
def isRegistryReq : DepReq → Bool
  | .registry _ => true
  | .nonRegistry _ => false

/-- Debug rendering of a requirement as the Rust code's
`format!("...", req)` of the non-registry resolutions produces it; for
`nonRegistry` it is the carried rendering itself. -/
def reqDebug : DepReq → String
  | .registry c => "Registry(" ++ c ++ ")"
  | .nonRegistry d => d

/-- The parts of an elba `Manifest` that the bot reads: the package
coordinate plus the dependency map in its iteration order. -/
structure Manifest where
  name : PkgName
  version : String
  description : Option String
  dependencies : List (String × DepReq)
deriving DecidableEq, Repr

/-- Errors surfaced by `Controller::check_publish_permission`
(src/controller/publish.rs lines 88-123 and src/error.rs):
`namespaceIsTaken` and `packageExists` are the two `bail!`ed variants;
`queryError` stands for a propagated `query_package` failure; and
`ownerPanic` marks the `query_user(..)?.unwrap()` on a missing owner row,
which aborts the task rather than returning. -/
inductive PubError where
  | namespaceIsTaken (group : String) (owner : String)
  | packageExists (package : String) (version : String)
  | queryError
  | ownerPanic
deriving DecidableEq, Repr

/-- Model of `Controller::check_publish_permission`
(src/controller/publish.rs lines 88-123): query the ledger for the
packages in the manifest's normalized group; if one of them has an owner
other than the requester, fail with NamespaceIsTaken naming that owner;
otherwise if one of them carries the manifest's exact normalized name and
version, fail with PackageExists; otherwise succeed. -/
def check_publish_permission (db : DbState) (name : PkgName) (version : String)
    (user : User) : Except PubError Unit :=
  match Database.query_package db (some name.group) with
  | .error _ => .error .queryError
  | .ok packages_in_group =>
    match packages_in_group.find? (fun p => p.user_id != user.id) with
    | some conflict =>
      match Database.query_user db conflict.user_id with
      | some owner => .error (.namespaceIsTaken conflict.group owner.name)
      | none => .error .ownerPanic
    | none =>
      if packages_in_group.any (fun p => p.name == name.name && p.version == version)
      then .error (.packageExists (PkgName.toStr name) version)
      else .ok ()

/-- Did the permission check fail with `NamespaceIsTaken`? -/
def isNamespaceTakenRes : Except PubError Unit → Bool
  | .error (.namespaceIsTaken _ _) => true
  | _ => false

/-- Did the permission check fail with `PackageExists`? -/
def isPackageExistsRes : Except PubError Unit → Bool
  | .error (.packageExists _ _) => true
  | _ => false

/-- The whitespace class of nom's `multispace0` / `multispace1`: space,
tab, carriage return and line feed. -/
def isNomMultispace (c : Char) : Bool :=
  c == ' ' || c == '\t' || c == '\r' || c == '\n'

/-- Rust's `char::is_whitespace`: the Unicode White_Space property, used
by the `word` sub-parser via `take_while1(|c| !c.is_whitespace())`. -/
def rustIsWhitespace (c : Char) : Bool :=
  let n := c.toNat
  (9 ≤ n && n ≤ 13) || n == 32 || n == 0x85 || n == 0xA0 || n == 0x1680 ||
  (0x2000 ≤ n && n ≤ 0x200A) || n == 0x2028 || n == 0x2029 ||
  n == 0x202F || n == 0x205F || n == 0x3000

/-- nom `tag` for a single character: consume `c` or fail (recoverably). -/
def tagChar (c : Char) : List Char → Option (List Char)
  | x :: rest => if x == c then some rest else none
  | [] => none

/-- nom `tag` for a character sequence: consume `pat` or fail. -/
def tagSeq (pat i : List Char) : Option (List Char) :=
  if pat.isPrefixOf i then some (i.drop pat.length) else none

/-- nom `multispace1`: consume one or more multispace characters. -/
def multispace1 : List Char → Option (List Char)
  | [] => none
  | c :: rest =>
    if isNomMultispace c then some (rest.dropWhile isNomMultispace) else none

/-- The `word` sub-parser (src/controller/command.rs lines 65-67):
`take_while1` of non-whitespace characters; returns the word and the rest. -/
def word1 : List Char → Option (List Char × List Char)
  | [] => none
  | c :: rest =>
    if rustIsWhitespace c then none
    else some ((c :: rest).takeWhile (fun x => !rustIsWhitespace x),
               (c :: rest).dropWhile (fun x => !rustIsWhitespace x))

/-- The one recognized command, `Command::Publish` in
src/controller/command.rs: a source git URL and an optional ref name. -/
structure Command where
  git : List Char
  refname : Option (List Char)
deriving DecidableEq, Repr

/-- The `parse_publish` sub-parser (src/controller/command.rs lines
46-63): `tag("/publish")`, mandatory whitespace, the git word, then
optionally whitespace and a ref word; anything after that is left
unconsumed (and thereby ignored). -/
def parse_publish (i : List Char) : Option (List Char × Command) := do
  let i1 ← tagSeq "/publish".data i
  let i2 ← multispace1 i1
  let (git, i3) ← word1 i2
  match (do
      let j ← multispace1 i3
      word1 j : Option (List Char × List Char)) with
  | some (refw, i4) => some (i4, ⟨git, some refw⟩)
  | none => some (i3, ⟨git, none⟩)

/-- The `mention` sub-parser (src/controller/command.rs lines 38-44):
`tag("@")` then `tag(bot_name)`. -/
def mention (bot_name i : List Char) : Option (List Char) :=
  (tagChar '@' i).bind (tagSeq bot_name)

/-- Model of `parse::parse_command` (src/controller/command.rs lines
24-36): skip leading multispace; try the mention under `opt` (so a
failing mention yields no command rather than an error); after a mention,
require whitespace and a `/publish` command, any failure there being a
parse error. `Command::from_str` simply forwards this result, so the
same function models both. -/
def parse_command (i bot_name : List Char) :
    Except Unit (List Char × Option Command) :=
  let i1 := i.dropWhile isNomMultispace
  match mention bot_name i1 with
  | none => .ok (i1, none)
  | some i2 =>
    match multispace1 i2 with
    | none => .error ()
    | some i3 =>
      match parse_publish i3 with
      | none => .error ()
      | some (i4, cmd) => .ok (i4, some cmd)

/-- Does `pat` occur as a contiguous subsequence of `l`? Used to state
that a comment does (not) mention the bot anywhere in its text. -/
def occursIn (pat : List Char) : List Char → Bool
  | [] => pat.isPrefixOf []
  | c :: rest => pat.isPrefixOf (c :: rest) || occursIn pat rest

/-- A polled Github issue comment (src/github.rs `Comment`): id, author,
body and creation timestamp (an abstract integer; the poll loop only
compares timestamps and subtracts a fixed one-minute tolerance, modelled
as 1). -/
structure GComment where
  id : Int
  user : User
  body : List Char
  created_at : Int
deriving DecidableEq, Repr

/-- Externally visible actions of the controller's per-comment handling
(src/controller/mod.rs lines 60-114): ledger writes, the malformed-command
comment edit, the spawn of a publish pipeline (which receives the git
URL, the optional ref and the triggering comment), and the abort of the
whole run loop when a ledger write fails and its error propagates. -/
inductive CtrlEvent where
  | ledgerUser (u : User)
  | ledgerComment (id : Int)
  | commandErrorReport (id : Int)
  | dispatchPublish (id : Int) (git : List Char) (refname : Option (List Char))
  | abortRun
deriving DecidableEq, Repr

/-- Model of one iteration of the comment loop in `Controller::run`
(src/controller/mod.rs lines 60-114) for a single polled comment:
skip comments older than the last poll date minus the tolerance, skip the
bot's own comments, skip comments whose id is already ledgered; otherwise
upsert the author and insert the comment into the ledger, and only then
parse the body — a body with no command is ignored, a malformed command
gets a "could not understand" comment edit, and a recognized publish command is
dispatched as a detached task. Returns the new ledger state and the trace
of actions, in order. -/
def processComment (viewerId : Int) (bot_name : List Char) (lastDate : Int)
    (db : DbState) (c : GComment) : DbState × List CtrlEvent :=
  if c.created_at < lastDate - 1 then (db, [])
  else if c.user.id == viewerId then (db, [])
  else if (Database.query_comment db c.id).isSome then (db, [])
  else
    let db1 := Database.insert_user db c.user
    match Database.insert_comment db1 ⟨c.id, c.user.id, c.body, c.created_at⟩ with
    | .error _ => (db1, [.ledgerUser c.user, .abortRun])
    | .ok db2 =>
      match parse_command c.body bot_name with
      | .error _ =>
        (db2, [.ledgerUser c.user, .ledgerComment c.id, .commandErrorReport c.id])
      | .ok (_, none) =>
        (db2, [.ledgerUser c.user, .ledgerComment c.id])
      | .ok (_, some cmd) =>
        (db2, [.ledgerUser c.user, .ledgerComment c.id,
               .dispatchPublish c.id cmd.git cmd.refname])

/-- Number of pipeline dispatches in a controller trace. -/
def countDispatch : List CtrlEvent → Nat
  | [] => 0
  | .dispatchPublish _ _ _ :: rest => countDispatch rest + 1
  | _ :: rest => countDispatch rest

/-- Does this comment survive the three skip checks of the poll loop
(tolerance window, self-authorship, already-ledgered id)? -/
def passesChecks (viewerId : Int) (lastDate : Int) (db : DbState) (c : GComment) : Bool :=
  !(decide (c.created_at < lastDate - 1)) && !(c.user.id == viewerId) &&
  !(Database.query_comment db c.id).isSome

/-- Does the comment body parse to a recognized command? -/
def parsesToCommand (body bot_name : List Char) : Bool :=
  match parse_command body bot_name with
  | .ok (_, some _) => true
  | _ => false

/-- Combined dedup property of the controller, checked on two successive
runs of the per-comment step from an arbitrary ledger state (the second
starting from the first's resulting state, each with its own poll date):
(a) an already-ledgered comment id causes a skip with no state change and
no action; (b) a comment that passes the skip checks has the author
upsert and the comment insert as its first two actions, before any
parse-dependent action; (c) two comments with the same id yield at most
one dispatch in total; (d) if the first comment passes the checks and
parses to a command and the second is the identical comment, the first
run dispatches exactly once and the second not at all. -/
def c3check (viewerId : Int) (bot_name : List Char) (d1 d2 : Int)
    (db : DbState) (c1 c2 : GComment) : Bool :=
  let p1 := processComment viewerId bot_name d1 db c1
  let p2 := processComment viewerId bot_name d2 p1.1 c2
  (!(Database.query_comment db c1.id).isSome || decide (p1 = (db, []))) &&
  (!passesChecks viewerId d1 db c1 ||
     decide (p1.2.take 2 = [.ledgerUser c1.user, .ledgerComment c1.id])) &&
  (!(c1.id == c2.id) || decide (countDispatch p1.2 + countDispatch p2.2 ≤ 1)) &&
  (!(passesChecks viewerId d1 db c1 && parsesToCommand c1.body bot_name &&
       c1 == c2) ||
     (decide (countDispatch p1.2 = 1) && decide (countDispatch p2.2 = 0)))

/-- The comment loop of one poll iteration (src/controller/mod.rs lines
60-114): each polled comment is handled in order, threading the ledger;
a failing ledger write propagates out of `Controller::run` through `?`,
aborting the loop, so no later comment is handled in that run. -/
def processComments (v : Int) (bot_name : List Char) (lastDate : Int) :
    DbState → List GComment → DbState × List CtrlEvent
  | db, [] => (db, [])
  | db, c :: cs =>
    let p := processComment v bot_name lastDate db c
    if p.2.contains CtrlEvent.abortRun then p
    else
      let rest := processComments v bot_name lastDate p.1 cs
      (rest.1, p.2 ++ rest.2)

/-- Number of pipeline dispatches for the comment id `x` in a trace. -/
def countDispatchFor (x : Int) : List CtrlEvent → Nat
  | [] => 0
  | .dispatchPublish i _ _ :: rest =>
    (if i == x then 1 else 0) + countDispatchFor x rest
  | _ :: rest => countDispatchFor x rest

/-- The publish pipeline steps, src/controller/publish.rs `PublishStep`. -/
inductive PublishStep where
  | block | pull | verify | upload | updateIndex | done
deriving DecidableEq, Repr

/-- The fallible operations of `Controller::publish`
(src/controller/publish.rs lines 29-69), in call order: the progress
comment edits, the temp directory creation, the source clone and
checkout, the tarball build, the permission check, the store upload, the
index update, the ledger commit, the readme list rendering and the
readme update; plus the two terminal report calls. -/
inductive PublishOp where
  | reportBlock | reportPull | newTempDir | cloneRepo | checkoutRef
  | reportVerify | buildPackage | permissionCheck
  | reportUpload | uploadPackage
  | updateIndexOp | commitPublishOp | renderListOp | updateReadmeOp
  | reportDone | reportErr
deriving DecidableEq, Repr

/-- Observable events of one `Controller::publish` run: assignments to
the ephemeral publish state (`state.step = ...`, `state.error = ...`),
comment-edit reports carrying the state they render, the workspace lock
acquisition, and the collaborator calls. An operation's event records
the attempt; whether it succeeded is read from the trace continuing. -/
inductive PublishEvent where
  | setStep (s : PublishStep)
  | report (s : PublishStep) (error : Option PublishOp)
  | setError (op : PublishOp)
  | acquireLock
  | newTempDirE | cloneE | checkoutE | buildE | permCheckE | uploadE
  | updateIndexE | commitPublishE | renderListE | updateReadmeE
deriving DecidableEq, Repr

/-- Does the given environment make this operation fail? Each operation
is called at most once and the first failure aborts the `try` block, so
an arbitrary assignment of outcomes is observationally the choice of the
first operation to fail (if any). -/
def opFails (failAt : Option PublishOp) (op : PublishOp) : Bool :=
  failAt == some op

/-- Events of the error arm of `Controller::publish` (lines 77-81): the
error is stored into the state and the comment is re-rendered with the
step the state had reached and that error. (A failure of this last edit
only changes the function's return value, not the emitted events.) -/
def publishErrEvents (s : PublishStep) (op : PublishOp) : List PublishEvent :=
  [.setError op, .report s (some op)]

/-- Trace of one `Controller::publish` run (src/controller/publish.rs
lines 16-85), for the environment in which operation `failAt` (if any,
and if reached) is the one that fails, with `hasRef` telling whether the
command carried a ref name. Mirrors the source line by line: the state
starts at `Block` and is reported, the workspace lock is taken, each
later step is entered by a `state.step` assignment; the `Pull`, `Verify`
and `Upload` steps re-render the comment right after the assignment,
while the `UpdateIndex` assignment (line 62) is directly followed by the
index update with no re-render; on success the state moves to `Done` and
is reported, and on the first failure the error arm runs. -/
def publishTrace (failAt : Option PublishOp) (hasRef : Bool) : List PublishEvent :=
  [.setStep .block, .report .block none] ++
  if opFails failAt .reportBlock then publishErrEvents .block .reportBlock else
  [.acquireLock] ++
  [.setStep .pull, .report .pull none] ++
  if opFails failAt .reportPull then publishErrEvents .pull .reportPull else
  [.newTempDirE] ++
  if opFails failAt .newTempDir then publishErrEvents .pull .newTempDir else
  [.cloneE] ++
  if opFails failAt .cloneRepo then publishErrEvents .pull .cloneRepo else
  (if hasRef then [.checkoutE] else []) ++
  if hasRef && opFails failAt .checkoutRef then publishErrEvents .pull .checkoutRef else
  [.setStep .verify, .report .verify none] ++
  if opFails failAt .reportVerify then publishErrEvents .verify .reportVerify else
  [.buildE] ++
  if opFails failAt .buildPackage then publishErrEvents .verify .buildPackage else
  [.permCheckE] ++
  if opFails failAt .permissionCheck then publishErrEvents .verify .permissionCheck else
  [.setStep .upload, .report .upload none] ++
  if opFails failAt .reportUpload then publishErrEvents .upload .reportUpload else
  [.uploadE] ++
  if opFails failAt .uploadPackage then publishErrEvents .upload .uploadPackage else
  [.setStep .updateIndex] ++
  [.updateIndexE] ++
  if opFails failAt .updateIndexOp then publishErrEvents .updateIndex .updateIndexOp else
  [.commitPublishE] ++
  if opFails failAt .commitPublishOp then publishErrEvents .updateIndex .commitPublishOp else
  [.renderListE] ++
  if opFails failAt .renderListOp then publishErrEvents .updateIndex .renderListOp else
  [.updateReadmeE] ++
  if opFails failAt .updateReadmeOp then publishErrEvents .updateIndex .updateReadmeOp else
  [.setStep .done, .report .done none]

/-- Does every state transition (a `setStep` or the `setError` of the
failed outcome) have, as the immediately following event, a comment
re-render carrying that new step (resp. that error)? This is the
claimed synchronous progress-reporting discipline. -/
def reportImmediatelyFollows : List PublishEvent → Bool
  | [] => true
  | .setStep s :: rest =>
    (match rest with
     | .report s2 _ :: _ => s2 == s
     | _ => false) && reportImmediatelyFollows rest
  | .setError op :: rest =>
    (match rest with
     | .report _ e :: _ => e == some op
     | _ => false) && reportImmediatelyFollows rest
  | _ :: rest => reportImmediatelyFollows rest

/-- Same discipline, with the single transition into `UpdateIndex`
exempted: that is the one assignment the code does not follow with a
comment edit. -/
def reportFollowsExceptUpdateIndex : List PublishEvent → Bool
  | [] => true
  | .setStep .updateIndex :: rest => reportFollowsExceptUpdateIndex rest
  | .setStep s :: rest =>
    (match rest with
     | .report s2 _ :: _ => s2 == s
     | _ => false) && reportFollowsExceptUpdateIndex rest
  | .setError op :: rest =>
    (match rest with
     | .report _ e :: _ => e == some op
     | _ => false) && reportFollowsExceptUpdateIndex rest
  | _ :: rest => reportFollowsExceptUpdateIndex rest

/-- Events of a trace strictly before the first occurrence of `e`. -/
def eventsBefore (e : PublishEvent) : List PublishEvent → List PublishEvent
  | [] => []
  | x :: rest => if x == e then [] else x :: eventsBefore e rest

/-- Does the environment make one of the operations of the
pulling-through-uploading span fail (counting the checkout only when a
ref was requested, since it is not called otherwise)? -/
def pullPhaseFails (failAt : Option PublishOp) (hasRef : Bool) : Bool :=
  opFails failAt .newTempDir || opFails failAt .cloneRepo ||
  (hasRef && opFails failAt .checkoutRef) ||
  opFails failAt .buildPackage || opFails failAt .permissionCheck ||
  opFails failAt .uploadPackage

/-- Ordering discipline of the commit path: the ledger package write
(`commit_publish`) happens only in traces where the index update was
attempted earlier and did not fail; and when pulling, building, the
permission check or the upload fails, neither the index update nor the
ledger package write is ever reached. -/
def c4check (failAt : Option PublishOp) (hasRef : Bool) : Bool :=
  let t := publishTrace failAt hasRef
  (!(t.contains .commitPublishE) ||
     (t.contains .updateIndexE && !(opFails failAt .updateIndexOp) &&
      (eventsBefore .commitPublishE t).contains .updateIndexE)) &&
  (!(pullPhaseFails failAt hasRef) ||
     (!(t.contains .updateIndexE) && !(t.contains .commitPublishE)))

/-- The fallible operations of `Store::upload_package`
(src/workspace/store.rs lines 30-107), in call order: the artifact size
probe (`fs::metadata`), the store fetch-and-reset, the destination
directory creation, the artifact copy, the local checksum computation,
the commit-and-push, and the published-URL re-download. -/
inductive StoreOp where
  | metadataOp | fetchResetOp | createDirOp | copyOp | checksumOp
  | commitPushOp | downloadOp
deriving DecidableEq, Repr

/-- Observable events of one `Store::upload_package` run, recording each
attempted step; `sizeCheckE` is the pure comparison against the
configured ceiling. -/
inductive StoreEvent where
  | metadataE | sizeCheckE | fetchResetE | createDirE | copyE | checksumE
  | commitPushE | downloadE
deriving DecidableEq, Repr

/-- Errors of `Store::upload_package`: an IO/git/network failure of one
of its operations, the size rejection `Error::PackageOversize` carrying
the observed size and the configured limit, or the checksum mismatch
`Error::DownloadVerification`. -/
inductive StoreError where
  | ioError (op : StoreOp)
  | packageOversize (size : Nat) (limit : Nat)
  | downloadVerification
deriving DecidableEq, Repr

/-- Model of `Store::upload_package` (src/workspace/store.rs lines
30-107): probe the tarball size; reject with `PackageOversize` when it
exceeds (strictly) the configured ceiling, before touching the store
repository; then fetch-and-reset, create the destination directory, copy
the tarball, hash it, commit and push, re-download from the raw URL and
compare digests. Returns the events in order together with the result;
`failAt` selects the operation (if any, and if reached) that fails, and
`cksumMatches` tells whether the re-downloaded digest equals the local
one. -/
def upload_package (size limit : Nat) (failAt : Option StoreOp)
    (cksumMatches : Bool) : List StoreEvent × Except StoreError Unit :=
  if failAt == some .metadataOp then
    ([.metadataE], .error (.ioError .metadataOp))
  else if size > limit then
    ([.metadataE, .sizeCheckE], .error (.packageOversize size limit))
  else if failAt == some .fetchResetOp then
    ([.metadataE, .sizeCheckE, .fetchResetE], .error (.ioError .fetchResetOp))
  else if failAt == some .createDirOp then
    ([.metadataE, .sizeCheckE, .fetchResetE, .createDirE],
     .error (.ioError .createDirOp))
  else if failAt == some .copyOp then
    ([.metadataE, .sizeCheckE, .fetchResetE, .createDirE, .copyE],
     .error (.ioError .copyOp))
  else if failAt == some .checksumOp then
    ([.metadataE, .sizeCheckE, .fetchResetE, .createDirE, .copyE, .checksumE],
     .error (.ioError .checksumOp))
  else if failAt == some .commitPushOp then
    ([.metadataE, .sizeCheckE, .fetchResetE, .createDirE, .copyE, .checksumE,
      .commitPushE], .error (.ioError .commitPushOp))
  else if failAt == some .downloadOp then
    ([.metadataE, .sizeCheckE, .fetchResetE, .createDirE, .copyE, .checksumE,
      .commitPushE, .downloadE], .error (.ioError .downloadOp))
  else if !cksumMatches then
    ([.metadataE, .sizeCheckE, .fetchResetE, .createDirE, .copyE, .checksumE,
      .commitPushE, .downloadE], .error .downloadVerification)
  else
    ([.metadataE, .sizeCheckE, .fetchResetE, .createDirE, .copyE, .checksumE,
      .commitPushE, .downloadE], .ok ())

/-- Did the upload fail with the size rejection? -/
def isOversizeRes : Except StoreError Unit → Bool
  | .error (.packageOversize _ _) => true
  | _ => false

/-- Has the store repository (local checkout or remote) been left
untouched: no fetch, no directory creation or file copy, no commit, no
push? -/
def storeMutationFree (t : List StoreEvent) : Bool :=
  !(t.contains .fetchResetE) && !(t.contains .createDirE) &&
  !(t.contains .copyE) && !(t.contains .commitPushE)

/-- Size-boundary property of the upload: when the size probe succeeds,
an artifact strictly over the ceiling is rejected with `PackageOversize`
carrying (size, limit) before any repository mutation, while an artifact
exactly at the ceiling passes the size check (the fetch is attempted and
the result, whatever else happens, is never the size rejection). -/
def c9check (size limit : Nat) (failAt : Option StoreOp)
    (cksumMatches : Bool) : Bool :=
  let r := upload_package size limit failAt cksumMatches
  (!(decide (limit < size) && !(failAt == some StoreOp.metadataOp)) ||
     (decide (r.2 = .error (.packageOversize size limit)) && storeMutationFree r.1)) &&
  (!(decide (size = limit) && !(failAt == some StoreOp.metadataOp)) ||
     (r.1.contains .fetchResetE && !(isOversizeRes r.2)))

/-- An elba index `RawEntry` (one line of a per-(group, name) metafile):
package name and version, the artifact location (url plus checksum,
present on every entry the bot writes), translated registry dependency
records, and the yank flag. -/
structure RawEntry where
  name : PkgName
  version : String
  location : Option (String × Option String)
  dependencies : List (String × String)
  yanked : Bool
deriving DecidableEq, Repr

/-- The in-memory entry list `Entries` of one index metafile
(src/workspace/index.rs line 99). -/
abbrev Entries := List RawEntry

/-- Index errors raised by `Entries::insert`: `Error::NonIndexDependency`
with the dependency's name and its debug-rendered resolution. -/
inductive IdxError where
  | nonIndexDependency (dependency : String) (resolution : String)
deriving DecidableEq, Repr

/-- The dependency-translation loop of `Entries::insert`
(src/workspace/index.rs lines 135-149): walk the manifest dependencies in
order, turning each registry requirement into a `RawDep`-like
(name, constraint) record and bailing with `NonIndexDependency` at the
first requirement resolved outside the registry. -/
def translateDeps : List (String × DepReq) → Except IdxError (List (String × String))
  | [] => .ok []
  | (n, .registry c) :: rest =>
    match translateDeps rest with
    | .ok ds => .ok ((n, c) :: ds)
    | .error e => .error e
  | (n, .nonRegistry d) :: _ => .error (.nonIndexDependency n d)

/-- Total companion of `translateDeps` for stating its success value:
under the all-registry hypothesis the translation returns exactly this
map. -/
def regDeps (deps : List (String × DepReq)) : List (String × String) :=
  deps.map (fun d =>
    match d with
    | (n, .registry c) => (n, c)
    | (n, .nonRegistry dd) => (n, dd))

/-- The entry `Entries::insert` builds from a manifest and a store
location (src/workspace/index.rs lines 151-157), assuming the
dependencies translated to `regDeps`. -/
def newEntry (m : Manifest) (loc : String × Option String) : RawEntry :=
  ⟨m.name, m.version, some loc, regDeps m.dependencies, false⟩

/-- Model of `Entries::insert` (src/workspace/index.rs lines 134-166) in
the mutable-receiver reading: translate the dependencies first, bailing
before any change to the list; on success remove every entry sharing the
new entry's (name, version) and append the new entry. Returns the
resulting list (the receiver's final contents — unchanged on error)
together with the error, if any. -/
def Entries.insert (es : Entries) (m : Manifest) (loc : String × Option String) :
    Entries × Option IdxError :=
  match translateDeps m.dependencies with
  | .error e => (es, some e)
  | .ok ds =>
    (es.filter (fun other => other.name != m.name || other.version != m.version) ++
       [⟨m.name, m.version, some loc, ds, false⟩], none)

/-- Re-inserting a package record that an insert just stored fails (the
UNIQUE constraint on the coordinate rejects it); vacuously true when the
first insert already failed. -/
def insertPackageDupFails (db : DbState) (p : Package) : Bool :=
  match Database.insert_package db p with
  | .ok db2 =>
    match Database.insert_package db2 p with
    | .error _ => true
    | .ok _ => false
  | .error _ => true

/-- Re-inserting a comment record that an insert just stored fails (the
PRIMARY KEY on the id rejects it); vacuously true when the first insert
already failed. -/
def insertCommentDupFails (db : DbState) (c : DbComment) : Bool :=
  match Database.insert_comment db c with
  | .ok db2 =>
    match Database.insert_comment db2 c with
    | .error _ => true
    | .ok _ => false
  | .error _ => true

/-- The empty ledger, as `create_tables` leaves a fresh database. -/
def emptyDb : DbState := ⟨[], [], []⟩

/-- Concrete package record used to exhibit the duplicate-insert failure. -/
def pkg5 : Package := ⟨"g", "n", "1.0.0", none, 7⟩

/-- Concrete comment record used to exhibit the duplicate-insert failure. -/
def cmt5 : DbComment := ⟨42, 7, "hi".data, 0⟩

/-- A ledger whose single package record lives in the group literally
named "name" (a perfectly legal normalized elba group), owned by user 1.
Because "name" is also a column of the packages table, the interpolated
SQL of `query_package` compares each row's group against its own package
name for this group. -/
def dbQuirk : DbState :=
  ⟨[⟨1, "alice"⟩], [⟨1, ⟨"name", "pkg", "1.0.0", none, 1⟩⟩], []⟩

/-- C1, counterexample: in the environment where every operation
succeeds (and no ref was given), the transition into `UpdateIndex` does
happen but is not immediately followed by a comment re-render — the
claimed discipline fails on the publish pipeline as written. -/
theorem publish_report_claim_refuted :
    reportImmediatelyFollows (publishTrace none false) = false ∧
    PublishEvent.setStep .updateIndex ∈ publishTrace none false := by
  decide

/-- C1, amended: every transition of the publish pipeline except the one
into `UpdateIndex` — including the transition into the failed outcome —
is immediately followed, before the next pipeline action, by a comment
edit rendering the new step (resp. the error); the `UpdateIndex`
assignment alone proceeds straight to the index update with no edit. -/
theorem publish_transition_reports (failAt : Option PublishOp) (hasRef : Bool) :
    reportFollowsExceptUpdateIndex (publishTrace failAt hasRef) = true := by
  cases failAt with
  | none => cases hasRef <;> rfl
  | some op => cases op <;> cases hasRef <;> rfl

/-- C4: in every publish environment, the ledger package write happens
only in traces where the index update was attempted earlier and
succeeded, and a failure of pulling, building, the permission check or
the upload leaves both the index update and the ledger package write
unreached. -/
theorem publish_ledger_after_index (failAt : Option PublishOp) (hasRef : Bool) :
    c4check failAt hasRef = true := by
  cases failAt with
  | none => cases hasRef <;> rfl
  | some op => cases op <;> cases hasRef <;> rfl

/-- C9: whenever the size probe succeeds, an artifact strictly over the
ceiling is rejected with `PackageOversize(size, limit)` with the store
repository untouched, and an artifact exactly at the ceiling passes the
size check. -/
theorem store_upload_size_boundary (size limit : Nat) (failAt : Option StoreOp)
    (cksumMatches : Bool) : c9check size limit failAt cksumMatches = true := by
  by_cases hm : failAt = some StoreOp.metadataOp
  · subst hm
    simp [c9check, upload_package]
  · by_cases hs : limit < size
    · have hne : ¬ size = limit := by omega
      simp [c9check, upload_package, hm, hs, hne, storeMutationFree,
        isOversizeRes]
    · have hgt : ¬ size > limit := hs
      cases failAt with
      | none =>
        cases cksumMatches <;>
          simp [c9check, upload_package, hs, hgt, isOversizeRes]
      | some op =>
        cases op <;> cases cksumMatches <;>
          simp [c9check, upload_package, hm, hs, hgt, isOversizeRes]

/-- C5, counterexample: inserting the very same package record (resp.
comment record) a second time does not succeed — the second insert is
rejected by the uniqueness constraint — refuting the claim that all
three ledger inserts are idempotent upserts. -/
theorem ledger_insert_claim_refuted :
    Database.insert_package emptyDb pkg5 = .ok ⟨[], [⟨1, pkg5⟩], []⟩ ∧
    Database.insert_package ⟨[], [⟨1, pkg5⟩], []⟩ pkg5 = .error () ∧
    Database.insert_comment emptyDb cmt5 = .ok ⟨[], [], [cmt5]⟩ ∧
    Database.insert_comment ⟨[], [], [cmt5]⟩ cmt5 = .error () := by
  decide

/-- C5, amended: only the user insert is an idempotent upsert (keyed on
the user id: re-inserting the same user record is a no-op on the
resulting state); the package and comment inserts are plain inserts that
fail on a duplicate key — (group, name, version) and id respectively —
leaving the store unchanged (the failed call returns an error and no new
state). -/
theorem ledger_insert_semantics (db : DbState) (u : User) (p : Package)
    (c : DbComment) :
    Database.insert_user (Database.insert_user db u) u = Database.insert_user db u ∧
    insertPackageDupFails db p = true ∧
    insertCommentDupFails db c = true := by
  refine ⟨?_, ?_, ?_⟩
  · simp [Database.insert_user, List.filter_append, List.filter_filter]
  · unfold insertPackageDupFails
    cases hfst : Database.insert_package db p with
    | error e => rfl
    | ok db2 =>
      have hshape :
          db2 = { db with
                  packageRows := db.packageRows ++ [⟨maxRowid db + 1, p⟩] } := by
        unfold Database.insert_package at hfst
        split at hfst
        · exact absurd hfst (by simp)
        · injection hfst with h2
          exact h2.symm
      have hdup : Database.insert_package db2 p = .error () := by
        have hcond : (db2.packageRows.any (fun r =>
            r.pkg.group == p.group && r.pkg.name == p.name &&
            r.pkg.version == p.version)) = true := by
          rw [hshape]
          simp [List.any_append]
        unfold Database.insert_package
        rw [if_pos hcond]
      simp [hdup]
  · unfold insertCommentDupFails
    cases hfst : Database.insert_comment db c with
    | error e => rfl
    | ok db2 =>
      have hshape : db2 = { db with comments := db.comments ++ [c] } := by
        unfold Database.insert_comment at hfst
        split at hfst
        · exact absurd hfst (by simp)
        · injection hfst with h2
          exact h2.symm
      have hdup : Database.insert_comment db2 c = .error () := by
        have hcond : (db2.comments.any (fun old => old.id == c.id)) = true := by
          rw [hshape]
          simp [List.any_append]
        unfold Database.insert_comment
        rw [if_pos hcond]
      simp [hdup]

/-- C6: evaluation of the code at the failing input. The ledger holds
the record (group = "name", name = "pkg", version = "1.0.0", owner 1),
yet `query_package(Some("name"))` returns no rows: the interpolated
double-quoted "name" is resolved by SQLite as the `name` column, so the
query compares each row's group with its own package name instead of
with the literal string. The spec requires exactly the records whose
group equals the argument. -/
theorem query_package_injection_eval :
    Database.query_package dbQuirk (some "name") = .ok [] ∧
    (⟨"name", "pkg", "1.0.0", none, 1⟩ : Package) ∈ ledgerPackages dbQuirk := by
  decide

/-- C2, counterexample: in the ledger `dbQuirk` the group "name" is
owned by user 1, and user 2 requests a publish into that group — by the
claim the check must fail with `NamespaceIsTaken` — but the check
succeeds, because its `query_package` call hits the double-quoted-column
SQL quirk and sees no records at all. -/
theorem check_publish_permission_claim_refuted :
    (∃ p ∈ ledgerPackages dbQuirk, p.group = "name" ∧ p.user_id ≠ (2 : Int)) ∧
    check_publish_permission dbQuirk ⟨"name", "other"⟩ "0.1.0" ⟨2, "bob"⟩ =
      .ok () := by
  decide

/-- When the group is not resolvable as an identifier of the packages
table, the interpolated SQL filter degenerates to the intended
group-equality test. -/
theorem sqlRowMatches_of_not_ident (g : String) (r : PackageRow)
    (h : sqlPackagesIdent g = false) :
    sqlRowMatches g r = (r.pkg.group == g) := by
  unfold sqlPackagesIdent at h
  simp only [Bool.or_eq_false_iff] at h
  obtain ⟨⟨⟨⟨⟨⟨⟨h1, h2⟩, h3⟩, h4⟩, h5⟩, h6⟩, h7⟩, h8⟩ := h
  unfold sqlRowMatches
  rw [h1, h2, h3, h4, h5, h6, h7, h8]
  rfl

/-- For a group that is neither quote-broken nor an identifier,
`query_package` succeeds and returns exactly the records whose group
equals the argument, in table order. -/
theorem query_package_not_ident (db : DbState) (g : String)
    (hident : sqlPackagesIdent g = false) (hquote : hasDoubleQuote g = false) :
    Database.query_package db (some g) =
      .ok ((db.packageRows.filter (fun r => r.pkg.group == g)).map
            (fun r => r.pkg)) := by
  simp only [Database.query_package]
  rw [if_neg (by simp [hquote])]
  have hfil : db.packageRows.filter (sqlRowMatches g) =
      db.packageRows.filter (fun r => r.pkg.group == g) :=
    List.filter_congr (fun r _ => sqlRowMatches_of_not_ident g r hident)
  rw [hfil]

/-- C2, amended: for every publish request whose normalized group is not
resolvable as an identifier of the packages table (none of group_name,
name, version, description, user_id, rowid, oid, _rowid_,
case-insensitively) and contains no double quote — the inputs on which
the interpolated ledger query behaves as a group filter — and whose
ledgered package owners are all present in the users table, the check
fails with `NamespaceIsTaken` iff some ledgered record in the request's
group has an owner other than the requester (regardless of name or
version); failing that, it fails with `PackageExists` iff a record with
the exact (group, name, version) exists; and it succeeds iff neither
holds. -/
theorem check_publish_permission_amended (db : DbState) (name : PkgName)
    (version : String) (user : User)
    (hident : sqlPackagesIdent name.group = false)
    (hquote : hasDoubleQuote name.group = false)
    (howner : ∀ r ∈ db.packageRows,
      (Database.query_user db r.pkg.user_id).isSome = true) :
    (isNamespaceTakenRes (check_publish_permission db name version user) = true ↔
       ∃ p ∈ ledgerPackages db, p.group = name.group ∧ p.user_id ≠ user.id) ∧
    (isPackageExistsRes (check_publish_permission db name version user) = true ↔
       ((¬ ∃ p ∈ ledgerPackages db, p.group = name.group ∧ p.user_id ≠ user.id) ∧
        ∃ p ∈ ledgerPackages db,
          p.group = name.group ∧ p.name = name.name ∧ p.version = version)) ∧
    (check_publish_permission db name version user = .ok () ↔
       ((¬ ∃ p ∈ ledgerPackages db, p.group = name.group ∧ p.user_id ≠ user.id) ∧
        (¬ ∃ p ∈ ledgerPackages db,
            p.group = name.group ∧ p.name = name.name ∧ p.version = version))) := by
  have hq := query_package_not_ident db name.group hident hquote
  set l := (db.packageRows.filter (fun r => r.pkg.group == name.group)).map
    (fun r => r.pkg) with hl
  have hmem : ∀ p, p ∈ l ↔ (p ∈ ledgerPackages db ∧ p.group = name.group) := by
    intro p
    rw [hl]
    simp only [List.mem_map, List.mem_filter, ledgerPackages]
    constructor
    · rintro ⟨r, ⟨hr, hg⟩, rfl⟩
      exact ⟨⟨r, hr, rfl⟩, by simpa using hg⟩
    · rintro ⟨⟨r, hr, rfl⟩, hg⟩
      exact ⟨r, ⟨hr, by simpa using hg⟩, rfl⟩
  have hcheck : check_publish_permission db name version user =
      (match l.find? (fun p => p.user_id != user.id) with
       | some conflict =>
         match Database.query_user db conflict.user_id with
         | some owner => .error (.namespaceIsTaken conflict.group owner.name)
         | none => .error .ownerPanic
       | none =>
         if l.any (fun p => p.name == name.name && p.version == version)
         then .error (.packageExists (PkgName.toStr name) version)
         else .ok ()) := by
    unfold check_publish_permission
    rw [hq]
  cases hfind : l.find? (fun p => p.user_id != user.id) with
  | some conflict =>
    have hconfl_mem : conflict ∈ l := List.mem_of_find?_eq_some hfind
    have hconfl_ne : conflict.user_id ≠ user.id := by
      have := List.find?_some hfind
      simpa using this
    have hExConfl : ∃ p ∈ ledgerPackages db, p.group = name.group ∧
        p.user_id ≠ user.id := by
      obtain ⟨hin, hg⟩ := (hmem conflict).1 hconfl_mem
      exact ⟨conflict, hin, hg, hconfl_ne⟩
    have hqu : (Database.query_user db conflict.user_id).isSome = true := by
      obtain ⟨hin, _⟩ := (hmem conflict).1 hconfl_mem
      obtain ⟨r, hr, rfl⟩ := by simpa [ledgerPackages] using hin
      exact howner r hr
    cases hquc : Database.query_user db conflict.user_id with
    | none => rw [hquc] at hqu; simp at hqu
    | some owner =>
      simp only [hcheck, hfind, hquc]
      refine ⟨?_, ?_, ?_⟩
      · simp only [isNamespaceTakenRes]
        exact ⟨fun _ => hExConfl, fun _ => trivial⟩
      · simp only [isPackageExistsRes]
        constructor
        · intro h
          simp at h
        · rintro ⟨hno, _⟩
          exact absurd hExConfl hno
      · constructor
        · intro h
          simp at h
        · rintro ⟨hno, _⟩
          exact absurd hExConfl hno
  | none =>
    have hnoconf : ¬ ∃ p ∈ ledgerPackages db, p.group = name.group ∧
        p.user_id ≠ user.id := by
      rintro ⟨p, hp, hg, hne⟩
      have hpl : p ∈ l := (hmem p).2 ⟨hp, hg⟩
      have := List.find?_eq_none.mp hfind p hpl
      simp at this
      exact hne this
    cases hany : l.any (fun p => p.name == name.name && p.version == version) with
    | true =>
      have hExact : ∃ p ∈ ledgerPackages db, p.group = name.group ∧
          p.name = name.name ∧ p.version = version := by
        obtain ⟨p, hpl, hcond⟩ := List.any_eq_true.mp hany
        obtain ⟨hin, hg⟩ := (hmem p).1 hpl
        refine ⟨p, hin, hg, ?_, ?_⟩
        · have := (Bool.and_eq_true _ _).mp hcond
          simpa using this.1
        · have := (Bool.and_eq_true _ _).mp hcond
          simpa using this.2
      simp only [hcheck, hfind]
      rw [if_pos hany]
      refine ⟨?_, ?_, ?_⟩
      · simp only [isNamespaceTakenRes]
        constructor
        · intro h
          simp at h
        · intro h
          exact absurd h hnoconf
      · simp only [isPackageExistsRes]
        exact ⟨fun _ => ⟨hnoconf, hExact⟩, fun _ => trivial⟩
      · constructor
        · intro h
          simp at h
        · rintro ⟨_, hno2⟩
          exact absurd hExact hno2
    | false =>
      have hnoexact : ¬ ∃ p ∈ ledgerPackages db, p.group = name.group ∧
          p.name = name.name ∧ p.version = version := by
        rintro ⟨p, hp, hg, hn, hv⟩
        have hpl : p ∈ l := (hmem p).2 ⟨hp, hg⟩
        have := List.any_eq_false.mp hany p hpl
        simp [hn, hv] at this
      simp only [hcheck, hfind]
      rw [if_neg (by simp [hany])]
      refine ⟨?_, ?_, ?_⟩
      · simp only [isNamespaceTakenRes]
        constructor
        · intro h
          simp at h
        · intro h
          exact absurd h hnoconf
      · simp only [isPackageExistsRes]
        constructor
        · intro h
          simp at h
        · rintro ⟨_, hex⟩
          exact absurd hex hnoexact
      · exact ⟨fun _ => ⟨hnoconf, hnoexact⟩, fun _ => rfl⟩

/-- Witness for the amended permission-check characterization: a ledger
whose single record in group "alpha" is owned by the requester (user 2)
satisfies all three hypotheses, and instantiating the theorem shows the
request for a fresh version in that group is accepted. -/
theorem check_publish_permission_amended_witness :
    check_publish_permission
      ⟨[⟨2, "bob"⟩], [⟨1, ⟨"alpha", "pkg", "1.0.0", none, 2⟩⟩], []⟩
      ⟨"alpha", "other"⟩ "2.0.0" ⟨2, "bob"⟩ = .ok () :=
  ((check_publish_permission_amended
      ⟨[⟨2, "bob"⟩], [⟨1, ⟨"alpha", "pkg", "1.0.0", none, 2⟩⟩], []⟩
      ⟨"alpha", "other"⟩ "2.0.0" ⟨2, "bob"⟩
      (by decide) (by decide) (by decide)).2.2).mpr
    ⟨by decide, by decide⟩

/-- Auxiliary: a search that fails on the first list continues into the
second. -/
theorem find?_append_of_none {α : Type} (l1 l2 : List α) (p : α → Bool)
    (h : l1.find? p = none) : (l1 ++ l2).find? p = l2.find? p := by
  induction l1 with
  | nil => rfl
  | cons a l ih =>
    rw [List.find?_cons] at h
    rw [List.cons_append, List.find?_cons]
    cases hp : p a with
    | true => rw [hp] at h; simp at h
    | false =>
      rw [hp] at h
      exact ih h

/-- A comment id that is already ledgered (or that fails the date or
self-authorship screens the same way) is skipped: already-ledgered ids in
particular produce no state change and no action. -/
theorem processComment_skip (v : Int) (bot : List Char) (d : Int) (db : DbState)
    (c : GComment) (h : (Database.query_comment db c.id).isSome = true) :
    processComment v bot d db c = (db, []) := by
  unfold processComment
  by_cases h1 : c.created_at < d - 1
  · rw [if_pos h1]
  · rw [if_neg h1]
    by_cases h2 : (c.user.id == v) = true
    · rw [if_pos h2]
    · rw [if_neg h2]
      rw [if_pos h]

/-- Inserting a comment whose id is not yet ledgered succeeds and appends
the record. -/
theorem insert_comment_of_fresh (db : DbState) (cm : DbComment)
    (h : (Database.query_comment db cm.id).isSome = false) :
    Database.insert_comment db cm = .ok { db with comments := db.comments ++ [cm] } := by
  unfold Database.query_comment at h
  unfold Database.insert_comment
  rw [if_neg]
  intro hany
  have hsome : (db.comments.find? (fun c2 => c2.id == cm.id)).isSome = true :=
    List.find?_isSome.mpr (List.any_eq_true.mp hany)
  rw [hsome] at h
  exact absurd h (by simp)

/-- After a successful comment insert, the id is ledgered. -/
theorem query_comment_after_insert (db : DbState) (cm : DbComment) (db2 : DbState)
    (h : Database.insert_comment db cm = .ok db2) :
    (Database.query_comment db2 cm.id).isSome = true := by
  unfold Database.insert_comment at h
  split at h
  · simp at h
  · rename_i hc
    injection h with h2
    subst h2
    have hnone : db.comments.find? (fun old => old.id == cm.id) = none := by
      rw [List.find?_eq_none]
      intro x hx hbeq
      exact hc (List.any_eq_true.mpr ⟨x, hx, hbeq⟩)
    unfold Database.query_comment
    show ((db.comments ++ [cm]).find? (fun old => old.id == cm.id)).isSome = true
    rw [find?_append_of_none _ _ _ hnone]
    simp [List.find?_cons]

/-- The per-comment step of a comment that passes the three screens:
the author and the comment are ledgered first, and the remaining actions
follow the parse result. -/
theorem processComment_fresh (v : Int) (bot : List Char) (d : Int) (db : DbState)
    (c : GComment) (h : passesChecks v d db c = true) :
    processComment v bot d db c =
      (match parse_command c.body bot with
       | .error _ =>
         ({ Database.insert_user db c.user with
            comments := db.comments ++ [⟨c.id, c.user.id, c.body, c.created_at⟩] },
          [.ledgerUser c.user, .ledgerComment c.id, .commandErrorReport c.id])
       | .ok (_, none) =>
         ({ Database.insert_user db c.user with
            comments := db.comments ++ [⟨c.id, c.user.id, c.body, c.created_at⟩] },
          [.ledgerUser c.user, .ledgerComment c.id])
       | .ok (_, some cmd) =>
         ({ Database.insert_user db c.user with
            comments := db.comments ++ [⟨c.id, c.user.id, c.body, c.created_at⟩] },
          [.ledgerUser c.user, .ledgerComment c.id,
           .dispatchPublish c.id cmd.git cmd.refname])) := by
  unfold passesChecks at h
  simp only [Bool.and_eq_true, Bool.not_eq_true'] at h
  obtain ⟨⟨ha, hb⟩, hc⟩ := h
  have ha2 : ¬ (c.created_at < d - 1) := by simpa using ha
  unfold processComment
  rw [if_neg ha2, if_neg (by simp [hb]), if_neg (by simp [hc])]
  have hins := insert_comment_of_fresh (Database.insert_user db c.user)
    ⟨c.id, c.user.id, c.body, c.created_at⟩ hc
  cases hp : parse_command c.body bot with
  | error e =>
    simp only [hins, hp]
    try rfl
  | ok pr =>
    cases pr with
    | mk rest cmdo =>
      cases cmdo with
      | none =>
        simp only [hins, hp]
        try rfl
      | some cmd =>
        simp only [hins, hp]
        try rfl

/-- Every per-comment step either skips (screens) or passes all three
screens. -/
theorem processComment_cases (v : Int) (bot : List Char) (d : Int) (db : DbState)
    (c : GComment) :
    processComment v bot d db c = (db, []) ∨ passesChecks v d db c = true := by
  by_cases h1 : c.created_at < d - 1
  · left
    unfold processComment
    rw [if_pos h1]
  · by_cases h2 : (c.user.id == v) = true
    · left
      unfold processComment
      rw [if_neg h1, if_pos h2]
    · by_cases h3 : (Database.query_comment db c.id).isSome = true
      · left
        exact processComment_skip v bot d db c h3
      · right
        unfold passesChecks
        simp [h1, h2, h3]

/-- One per-comment step dispatches at most one pipeline. -/
theorem processComment_dispatch_le_one (v : Int) (bot : List Char) (d : Int)
    (db : DbState) (c : GComment) :
    countDispatch (processComment v bot d db c).2 ≤ 1 := by
  rcases processComment_cases v bot d db c with h | h
  · rw [h]
    simp [countDispatch]
  · rw [processComment_fresh v bot d db c h]
    cases hp : parse_command c.body bot with
    | error e => simp [countDispatch]
    | ok pr =>
      cases pr with
      | mk rest cmdo =>
        cases cmdo with
        | none => simp [countDispatch]
        | some cmd => simp [countDispatch]

/-- If a per-comment step dispatched a pipeline, the comment's id is
ledgered in the resulting state. -/
theorem processComment_dispatch_ledgered (v : Int) (bot : List Char) (d : Int)
    (db : DbState) (c : GComment)
    (h : 0 < countDispatch (processComment v bot d db c).2) :
    (Database.query_comment (processComment v bot d db c).1 c.id).isSome = true := by
  rcases processComment_cases v bot d db c with hskip | hpass
  · rw [hskip] at h
    simp [countDispatch] at h
  · have hpass2 := hpass
    unfold passesChecks at hpass2
    simp only [Bool.and_eq_true, Bool.not_eq_true'] at hpass2
    obtain ⟨⟨_, _⟩, hc3⟩ := hpass2
    rw [processComment_fresh v bot d db c hpass] at h ⊢
    cases hp : parse_command c.body bot with
    | error e =>
      rw [hp] at h
      simp [countDispatch] at h
    | ok pr =>
      cases pr with
      | mk rest cmdo =>
        cases cmdo with
        | none =>
          rw [hp] at h
          simp [countDispatch] at h
        | some cmd =>
          exact query_comment_after_insert (Database.insert_user db c.user)
            ⟨c.id, c.user.id, c.body, c.created_at⟩ _
            (insert_comment_of_fresh _ _ hc3)

/-- Bool-level modus ponens for the guarded conjuncts of the checkers. -/
theorem bimp_true (x y : Bool) (h : x = true → y = true) : (!x || y) = true := by
  cases x
  · rfl
  · simpa using h rfl

/-- Per-id dispatch counts are bounded by the total dispatch count. -/
theorem countDispatchFor_le_countDispatch (x : Int) (t : List CtrlEvent) :
    countDispatchFor x t ≤ countDispatch t := by
  induction t with
  | nil => simp [countDispatchFor, countDispatch]
  | cons e rest ih =>
    cases e with
    | dispatchPublish i g r =>
      simp only [countDispatchFor, countDispatch]
      by_cases hi : (i == x) = true
      · rw [if_pos hi]
        omega
      · rw [if_neg hi]
        omega
    | ledgerUser u => simpa [countDispatchFor, countDispatch] using ih
    | ledgerComment i => simpa [countDispatchFor, countDispatch] using ih
    | commandErrorReport i => simpa [countDispatchFor, countDispatch] using ih
    | abortRun => simpa [countDispatchFor, countDispatch] using ih

/-- Per-id dispatch counts add over trace concatenation. -/
theorem countDispatchFor_append (x : Int) (t1 t2 : List CtrlEvent) :
    countDispatchFor x (t1 ++ t2) =
      countDispatchFor x t1 + countDispatchFor x t2 := by
  induction t1 with
  | nil => simp [countDispatchFor]
  | cons e rest ih =>
    cases e with
    | dispatchPublish i g r =>
      simp [countDispatchFor, ih]
      omega
    | ledgerUser u => simpa [countDispatchFor] using ih
    | ledgerComment i => simpa [countDispatchFor] using ih
    | commandErrorReport i => simpa [countDispatchFor] using ih
    | abortRun => simpa [countDispatchFor] using ih

/-- A ledgered comment id stays ledgered across any per-comment step. -/
theorem processComment_preserves_ledgered (v : Int) (bot : List Char) (d : Int)
    (db : DbState) (c : GComment) (x : Int)
    (h : (Database.query_comment db x).isSome = true) :
    (Database.query_comment (processComment v bot d db c).1 x).isSome = true := by
  rcases processComment_cases v bot d db c with hskip | hpass
  · rw [hskip]
    exact h
  · rw [processComment_fresh v bot d db c hpass]
    have key : ∀ cm : DbComment,
        (Database.query_comment { Database.insert_user db c.user with
          comments := db.comments ++ [cm] } x).isSome = true := by
      intro cm
      unfold Database.query_comment at h ⊢
      rw [List.find?_isSome] at h ⊢
      obtain ⟨y, hy, hp⟩ := h
      exact ⟨y, List.mem_append_left _ hy, hp⟩
    cases hp : parse_command c.body bot with
    | error e => exact key _
    | ok pr =>
      cases pr with
      | mk rest cmdo =>
        cases cmdo with
        | none => exact key _
        | some cmd => exact key _

/-- A per-comment step never dispatches for an id that is already
ledgered: either the step skips, or it handles a different, fresh id and
its dispatch (if any) carries that other id. -/
theorem processComment_no_dispatchFor_ledgered (v : Int) (bot : List Char)
    (d : Int) (db : DbState) (c : GComment) (x : Int)
    (h : (Database.query_comment db x).isSome = true) :
    countDispatchFor x (processComment v bot d db c).2 = 0 := by
  rcases processComment_cases v bot d db c with hskip | hpass
  · rw [hskip]
    rfl
  · have hpass2 := hpass
    unfold passesChecks at hpass2
    simp only [Bool.and_eq_true, Bool.not_eq_true'] at hpass2
    obtain ⟨⟨_, _⟩, hc3⟩ := hpass2
    have hne : (c.id == x) = false := by
      by_cases hcx : c.id = x
      · rw [hcx] at hc3
        rw [hc3] at h
        exact absurd h (by simp)
      · simpa using hcx
    rw [processComment_fresh v bot d db c hpass]
    cases hp : parse_command c.body bot with
    | error e => rfl
    | ok pr =>
      cases pr with
      | mk rest cmdo =>
        cases cmdo with
        | none => rfl
        | some cmd => simp [countDispatchFor, hne]

/-- If a per-comment step dispatched for id `x`, then `x` is the
comment's own id and it is ledgered in the resulting state. -/
theorem processComment_dispatchFor_ledgered (v : Int) (bot : List Char)
    (d : Int) (db : DbState) (c : GComment) (x : Int)
    (h : 0 < countDispatchFor x (processComment v bot d db c).2) :
    (Database.query_comment (processComment v bot d db c).1 x).isSome = true := by
  rcases processComment_cases v bot d db c with hskip | hpass
  · rw [hskip] at h
    simp [countDispatchFor] at h
  · have hpass2 := hpass
    unfold passesChecks at hpass2
    simp only [Bool.and_eq_true, Bool.not_eq_true'] at hpass2
    obtain ⟨⟨_, _⟩, hc3⟩ := hpass2
    rw [processComment_fresh v bot d db c hpass] at h ⊢
    cases hp : parse_command c.body bot with
    | error e =>
      rw [hp] at h
      simp [countDispatchFor] at h
    | ok pr =>
      cases pr with
      | mk rest cmdo =>
        cases cmdo with
        | none =>
          rw [hp] at h
          simp [countDispatchFor] at h
        | some cmd =>
          rw [hp] at h
          have hcx : c.id = x := by
            by_cases hb : (c.id == x) = true
            · simpa using hb
            · exfalso
              simp [countDispatchFor, hb] at h
          rw [← hcx]
          exact query_comment_after_insert (Database.insert_user db c.user)
            ⟨c.id, c.user.id, c.body, c.created_at⟩ _
            (insert_comment_of_fresh _ _ hc3)

/-- A ledgered id produces no dispatch in a whole poll iteration. -/
theorem processComments_no_dispatchFor_ledgered (v : Int) (bot : List Char)
    (d : Int) (cs : List GComment) : ∀ (db : DbState) (x : Int),
    (Database.query_comment db x).isSome = true →
    countDispatchFor x (processComments v bot d db cs).2 = 0 := by
  induction cs with
  | nil =>
    intro db x _
    rfl
  | cons c cs ih =>
    intro db x h
    unfold processComments
    by_cases habort :
        ((processComment v bot d db c).2.contains CtrlEvent.abortRun) = true
    · rw [if_pos habort]
      exact processComment_no_dispatchFor_ledgered v bot d db c x h
    · rw [if_neg habort]
      rw [countDispatchFor_append]
      rw [processComment_no_dispatchFor_ledgered v bot d db c x h]
      rw [ih (processComment v bot d db c).1 x
        (processComment_preserves_ledgered v bot d db c x h)]

/-- Across one whole poll iteration, each comment id is dispatched at
most once. -/
theorem processComments_dispatchFor_le_one (v : Int) (bot : List Char)
    (d : Int) (cs : List GComment) : ∀ (db : DbState) (x : Int),
    countDispatchFor x (processComments v bot d db cs).2 ≤ 1 := by
  induction cs with
  | nil =>
    intro db x
    simp [processComments, countDispatchFor]
  | cons c cs ih =>
    intro db x
    unfold processComments
    by_cases habort :
        ((processComment v bot d db c).2.contains CtrlEvent.abortRun) = true
    · rw [if_pos habort]
      calc countDispatchFor x (processComment v bot d db c).2
          ≤ countDispatch (processComment v bot d db c).2 :=
            countDispatchFor_le_countDispatch x _
        _ ≤ 1 := processComment_dispatch_le_one v bot d db c
    · rw [if_neg habort]
      rw [countDispatchFor_append]
      by_cases hpos : 0 < countDispatchFor x (processComment v bot d db c).2
      · have hled := processComment_dispatchFor_ledgered v bot d db c x hpos
        rw [processComments_no_dispatchFor_ledgered v bot d cs
          (processComment v bot d db c).1 x hled]
        have hb := countDispatchFor_le_countDispatch x
          (processComment v bot d db c).2
        have hc := processComment_dispatch_le_one v bot d db c
        omega
      · have h0 : countDispatchFor x (processComment v bot d db c).2 = 0 := by
          omega
        rw [h0]
        simpa using ih (processComment v bot d db c).1 x

/-- C3: the controller's dedup discipline — already-ledgered comment ids
are skipped untouched; a fresh comment is ledgered (author upsert, then
comment insert) before any parse-dependent action; two runs on the same
comment id yield at most one dispatch, and exactly one when the first
run passes the screens and carries a well-formed publish command; and
over a whole poll iteration on any comment list, every comment id is
dispatched at most once. -/
theorem controller_dedup_dispatch (v : Int) (bot : List Char) (d1 d2 : Int)
    (db : DbState) (c1 c2 : GComment) (cs : List GComment) (x : Int) :
    c3check v bot d1 d2 db c1 c2 = true ∧
    countDispatchFor x (processComments v bot d1 db cs).2 ≤ 1 := by
  refine ⟨?_, processComments_dispatchFor_le_one v bot d1 cs db x⟩
  unfold c3check
  simp only [Bool.and_eq_true]
  refine ⟨⟨⟨?_, ?_⟩, ?_⟩, ?_⟩
  · apply bimp_true
    intro hx
    exact decide_eq_true (processComment_skip v bot d1 db c1 hx)
  · apply bimp_true
    intro hx
    apply decide_eq_true
    rw [processComment_fresh v bot d1 db c1 hx]
    cases hp : parse_command c1.body bot with
    | error e => rfl
    | ok pr =>
      cases pr with
      | mk rest cmdo =>
        cases cmdo with
        | none => rfl
        | some cmd => rfl
  · apply bimp_true
    intro hx
    apply decide_eq_true
    have hid : c1.id = c2.id := by simpa using hx
    by_cases hd : 0 < countDispatch (processComment v bot d1 db c1).2
    · have hled := processComment_dispatch_ledgered v bot d1 db c1 hd
      have hled2 : (Database.query_comment
          (processComment v bot d1 db c1).1 c2.id).isSome = true := by
        rw [← hid]
        exact hled
      have hskip := processComment_skip v bot d2
        (processComment v bot d1 db c1).1 c2 hled2
      rw [hskip]
      have hle1 := processComment_dispatch_le_one v bot d1 db c1
      simpa [countDispatch] using hle1
    · have h0 : countDispatch (processComment v bot d1 db c1).2 = 0 := by omega
      have hle2 := processComment_dispatch_le_one v bot d2
        (processComment v bot d1 db c1).1 c2
      omega
  · apply bimp_true
    intro hx
    simp only [Bool.and_eq_true] at hx
    obtain ⟨⟨hpass, hparse⟩, heq⟩ := hx
    have hc12 : c1 = c2 := by simpa using heq
    subst hc12
    have h1 : countDispatch (processComment v bot d1 db c1).2 = 1 := by
      rw [processComment_fresh v bot d1 db c1 hpass]
      unfold parsesToCommand at hparse
      cases hp : parse_command c1.body bot with
      | error e =>
        rw [hp] at hparse
        simp at hparse
      | ok pr =>
        cases pr with
        | mk rest cmdo =>
          cases cmdo with
          | none =>
            rw [hp] at hparse
            simp at hparse
          | some cmd => simp [hp, countDispatch]
    have hd : 0 < countDispatch (processComment v bot d1 db c1).2 := by omega
    have hled := processComment_dispatch_ledgered v bot d1 db c1 hd
    have hskip := processComment_skip v bot d2
      (processComment v bot d1 db c1).1 c1 hled
    rw [hskip, h1]
    simp [countDispatch]

/-- When every manifest dependency is a registry dependency, the
translation loop succeeds with the evident record list. -/
theorem translateDeps_all_registry (deps : List (String × DepReq))
    (h : ∀ x ∈ deps, isRegistryReq x.2 = true) :
    translateDeps deps = .ok (regDeps deps) := by
  induction deps with
  | nil => rfl
  | cons a rest ih =>
    cases a with
    | mk an ar =>
      cases ar with
      | registry c =>
        simp only [translateDeps, regDeps, List.map_cons]
        rw [ih (fun x hx => h x (List.mem_cons_of_mem _ hx))]
        rfl
      | nonRegistry dd =>
        exact absurd (h (an, .nonRegistry dd) (List.mem_cons_self _ _))
          (by simp [isRegistryReq])

/-- The translation loop bails at the first non-registry dependency,
naming it. -/
theorem translateDeps_first_error (pre post : List (String × DepReq))
    (n d : String) (hpre : ∀ x ∈ pre, isRegistryReq x.2 = true) :
    translateDeps (pre ++ (n, DepReq.nonRegistry d) :: post) =
      .error (.nonIndexDependency n d) := by
  induction pre with
  | nil => rfl
  | cons a rest ih =>
    cases a with
    | mk an ar =>
      cases ar with
      | registry c =>
        rw [List.cons_append]
        simp only [translateDeps]
        rw [ih (fun x hx => hpre x (List.mem_cons_of_mem _ hx))]
      | nonRegistry dd =>
        exact absurd (hpre (an, .nonRegistry dd) (List.mem_cons_self _ _))
          (by simp [isRegistryReq])

/-- Pointwise: an entry cannot both differ from and agree with the new
entry's (name, version) key. -/
theorem key_filter_disjoint (m : Manifest) (e : RawEntry) :
    ((e.name != m.name || e.version != m.version) &&
     (e.name == m.name && e.version == m.version)) = false := by
  cases h1 : e.name == m.name <;> cases h2 : e.version == m.version <;>
    simp [bne, h1, h2]

/-- C7: inserting a manifest whose dependencies are all registry
dependencies never fails, and performs an upsert keyed on
(name, version): the result is the old list minus any entry carrying the
manifest's key, plus the newly built entry (given location, not yanked,
translated dependencies) at the end; exactly one entry of the result
carries the key — the new one — and the entries with any other key are
exactly those of the old list, unchanged. -/
theorem entries_insert_upsert (es : Entries) (m : Manifest)
    (loc : String × Option String)
    (h : ∀ x ∈ m.dependencies, isRegistryReq x.2 = true) :
    (Entries.insert es m loc).2 = none ∧
    (Entries.insert es m loc).1 =
      es.filter (fun other => other.name != m.name || other.version != m.version)
        ++ [newEntry m loc] ∧
    (Entries.insert es m loc).1.filter
        (fun e => e.name == m.name && e.version == m.version) =
      [newEntry m loc] ∧
    (Entries.insert es m loc).1.filter
        (fun other => other.name != m.name || other.version != m.version) =
      es.filter
        (fun other => other.name != m.name || other.version != m.version) := by
  have ht := translateDeps_all_registry m.dependencies h
  have hins : Entries.insert es m loc =
      (es.filter (fun other => other.name != m.name || other.version != m.version)
        ++ [newEntry m loc], none) := by
    unfold Entries.insert
    rw [ht]
    rfl
  refine ⟨by rw [hins], by rw [hins], ?_, ?_⟩
  · rw [hins]
    rw [List.filter_append, List.filter_filter]
    have hnil : (es.filter (fun a =>
        (a.name == m.name && a.version == m.version) &&
        (a.name != m.name || a.version != m.version))) = [] := by
      rw [List.filter_eq_nil_iff]
      intro a _
      rw [Bool.and_comm]
      simp [key_filter_disjoint m a]
    rw [hnil]
    simp [newEntry]
  · rw [hins]
    rw [List.filter_append, List.filter_filter]
    have hid : (es.filter (fun a =>
        (a.name != m.name || a.version != m.version) &&
        (a.name != m.name || a.version != m.version))) =
        es.filter (fun a => a.name != m.name || a.version != m.version) := by
      apply List.filter_congr
      intro a _
      rw [Bool.and_self]
    rw [hid]
    have hnew : ((newEntry m loc).name != m.name ||
        (newEntry m loc).version != m.version) = false := by
      simp [newEntry, bne]
    simp [hnew]

/-- C10: a manifest containing a non-registry dependency (here: the
first such, after a registry-only block) makes `Entries::insert` fail
with `NonIndexDependency` naming that dependency and its resolution,
with the receiver's entry list left exactly as it was. -/
theorem entries_insert_non_index (es : Entries) (m : Manifest)
    (loc : String × Option String) (pre post : List (String × DepReq))
    (n d : String)
    (hdeps : m.dependencies = pre ++ (n, DepReq.nonRegistry d) :: post)
    (hpre : ∀ x ∈ pre, isRegistryReq x.2 = true) :
    Entries.insert es m loc = (es, some (.nonIndexDependency n d)) := by
  have ht : translateDeps m.dependencies = .error (.nonIndexDependency n d) := by
    rw [hdeps]
    exact translateDeps_first_error pre post n d hpre
  unfold Entries.insert
  rw [ht]

/-- A pattern that begins a list occurs in it. -/
theorem occursIn_of_prefixOf (pat l : List Char)
    (h : pat.isPrefixOf l = true) : occursIn pat l = true := by
  cases l with
  | nil => simpa [occursIn] using h
  | cons c rest => simp [occursIn, h]

/-- A pattern occurring after dropped leading characters occurs in the
whole list. -/
theorem occursIn_dropWhile (p : Char → Bool) (pat l : List Char)
    (h : occursIn pat (l.dropWhile p) = true) : occursIn pat l = true := by
  induction l with
  | nil => simpa using h
  | cons c rest ih =>
    rw [List.dropWhile_cons] at h
    by_cases hp : p c = true
    · rw [if_pos hp] at h
      simp [occursIn, ih h]
    · rw [if_neg hp] at h
      exact h

/-- A successful mention means the input begins with the at-sign and the
bot name. -/
theorem mention_implies_at_bot (bot i r : List Char)
    (h : mention bot i = some r) : ('@' :: bot).isPrefixOf i = true := by
  unfold mention at h
  cases i with
  | nil => simp [tagChar] at h
  | cons c rest =>
    simp only [tagChar] at h
    by_cases hc : (c == '@') = true
    · rw [if_pos hc] at h
      simp only [Option.some_bind] at h
      unfold tagSeq at h
      by_cases hpre : bot.isPrefixOf rest = true
      · have hc2 : ('@' == c) = true := by
          have : c = '@' := by simpa using hc
          simp [this]
        simp [List.isPrefixOf, hc2, hpre]
      · rw [if_neg (by simpa using hpre)] at h
        simp at h
    · rw [if_neg hc] at h
      simp at h

/-- C8: a comment whose text nowhere contains the at-mention of the bot
parses to "no command" — the parser returns Ok(None) with the trimmed
input unconsumed, and in particular never a parse error; equivalently, a
parse error can only arise on texts that do mention the bot. -/
theorem parse_command_no_mention (text bot : List Char)
    (h : occursIn ('@' :: bot) text = false) :
    parse_command text bot = .ok (text.dropWhile isNomMultispace, none) := by
  cases hm : mention bot (text.dropWhile isNomMultispace) with
  | none => simp only [parse_command, hm]
  | some i2 =>
    exfalso
    have hpre := mention_implies_at_bot bot _ i2 hm
    have hocc := occursIn_of_prefixOf _ _ hpre
    have hall := occursIn_dropWhile isNomMultispace ('@' :: bot) text hocc
    rw [hall] at h
    exact absurd h (by simp)

/-- Witness for the no-mention parse: a plain comment that never
mentions the bot parses to "no command". -/
theorem parse_command_no_mention_witness :
    occursIn ('@' :: "elba-bot".data) "please publish this for me".data = false ∧
    parse_command "please publish this for me".data "elba-bot".data =
      .ok ("please publish this for me".data, none) :=
  ⟨by decide, parse_command_no_mention _ _ (by decide)⟩

/-- Witness for the index upsert: republishing version 1.0.0 of `g/a`
next to an unrelated entry and a second version replaces the old 1.0.0
entry, keeps the others, and leaves exactly one entry for the key. -/
theorem entries_insert_upsert_witness :
    (Entries.insert
        [⟨⟨"g", "a"⟩, "1.0.0", some ("u0", none), [], false⟩,
         ⟨⟨"g", "b"⟩, "1.0.0", some ("u1", none), [], false⟩,
         ⟨⟨"g", "a"⟩, "2.0.0", some ("u2", none), [], false⟩]
        ⟨⟨"g", "a"⟩, "1.0.0", none, [("x", .registry "^1.0")]⟩
        ("u3", some "ck")).2 = none ∧
    (Entries.insert
        [⟨⟨"g", "a"⟩, "1.0.0", some ("u0", none), [], false⟩,
         ⟨⟨"g", "b"⟩, "1.0.0", some ("u1", none), [], false⟩,
         ⟨⟨"g", "a"⟩, "2.0.0", some ("u2", none), [], false⟩]
        ⟨⟨"g", "a"⟩, "1.0.0", none, [("x", .registry "^1.0")]⟩
        ("u3", some "ck")).1 =
      [⟨⟨"g", "b"⟩, "1.0.0", some ("u1", none), [], false⟩,
       ⟨⟨"g", "a"⟩, "2.0.0", some ("u2", none), [], false⟩,
       ⟨⟨"g", "a"⟩, "1.0.0", some ("u3", some "ck"), [("x", "^1.0")], false⟩] := by
  have h := entries_insert_upsert
    [⟨⟨"g", "a"⟩, "1.0.0", some ("u0", none), [], false⟩,
     ⟨⟨"g", "b"⟩, "1.0.0", some ("u1", none), [], false⟩,
     ⟨⟨"g", "a"⟩, "2.0.0", some ("u2", none), [], false⟩]
    ⟨⟨"g", "a"⟩, "1.0.0", none, [("x", .registry "^1.0")]⟩
    ("u3", some "ck") (by decide)
  exact ⟨h.1, by rw [h.2.1]; decide⟩

/-- Witness for the non-index-dependency rejection: a manifest with one
registry dependency followed by a git dependency is rejected naming the
git dependency, with the entry list returned unchanged. -/
theorem entries_insert_non_index_witness :
    Entries.insert
      [⟨⟨"g", "a"⟩, "1.0.0", some ("u0", none), [], false⟩]
      ⟨⟨"g", "c"⟩, "1.0.0", none,
        [("x", .registry "^1.0"), ("y", .nonRegistry "Git stuff")]⟩
      ("u9", none) =
      ([⟨⟨"g", "a"⟩, "1.0.0", some ("u0", none), [], false⟩],
       some (.nonIndexDependency "y" "Git stuff")) :=
  entries_insert_non_index
    [⟨⟨"g", "a"⟩, "1.0.0", some ("u0", none), [], false⟩]
    ⟨⟨"g", "c"⟩, "1.0.0", none,
      [("x", .registry "^1.0"), ("y", .nonRegistry "Git stuff")]⟩
    ("u9", none) [("x", .registry "^1.0")] [] "y" "Git stuff" rfl (by decide)
